import Mathlib

/-!
Verification of the quiz session controller of `src/App.tsx` (the `Game`
component of the flag-identification quiz).

The controller state is the seven React state hooks of `Game`; the
operations are the handlers `handleAnswerClick`, `handleNextQuestion`,
`restartGame`, the async helper `generateFacts` (split into its
synchronous entry `generateFactsStart` and its resolution
`generateFactsResolve`, which models the `try`/`catch`/`finally`), and the
pure styling function `getButtonClass`.

On top of the per-handler definitions, `stepEvent` gives an event-loop
semantics: discrete events (click, timer fire, request resolution,
restart, clock tick) are serialized, matching the single-threaded host
event loop; `setTimeout d` is modelled as appending a fire time `now + d`
to a pending-timer list, and a timer may fire only once its fire time has
been reached, being consumed by the fire. `runEvents` folds a list of
events and `Reachable` closes the initial state under it.
-/

namespace FunWithFlags

/-- Evaluation outcome of the current question (`AnswerState` in `src/types`):
`idle` is the spec's `pending`. -/
inductive AnswerState where
  | idle
  | correct
  | incorrect
  deriving DecidableEq

/-- A question record (`FLAG_QUESTIONS` entries). -/
structure Question where
  flagUrl : String
  options : List String
  correctAnswer : String
  deriving DecidableEq

/-- The seven React state hooks of the `Game` component
(`src/App.tsx` lines 8-14). `facts` is the spec's `supplementalText`,
`isLoadingFacts` the spec's `supplementalLoading`, `answerState` the
spec's `evaluation`. -/
structure GameState where
  currentQuestionIndex : Nat
  score : Nat
  selectedAnswer : Option String
  answerState : AnswerState
  isFinished : Bool
  facts : Option String
  isLoadingFacts : Bool
  deriving DecidableEq

/-- The `useState` initial values of `Game`. -/
def initialState : GameState :=
  { currentQuestionIndex := 0
    score := 0
    selectedAnswer := none
    answerState := AnswerState.idle
    isFinished := false
    facts := none
    isLoadingFacts := false }

/-- The fallback string set by the `catch` branch of `generateFacts`
(`src/App.tsx` line 31). -/
def fallbackMessage : String := "Sorry, I couldn\x27t fetch any fun facts right now."

/-- Synchronous entry of `generateFacts` (`src/App.tsx` lines 19-20):
`setIsLoadingFacts(true); setFacts(null)` before the awaited call. -/
def generateFactsStart (s : GameState) : GameState :=
  { s with isLoadingFacts := true, facts := none }

/-- Resolution of the awaited call in `generateFacts`
(`src/App.tsx` lines 21-34): on success `setFacts(response.text)`, on any
failure the `catch` sets the fallback message instead of propagating; the
`finally` sets `isLoadingFacts` to `false` in both outcomes. The result
of the external call is modelled as `Except String String` (error or
returned text); the function is total: no outcome propagates an error. -/
def generateFactsResolve (result : Except String String) (s : GameState) : GameState :=
  match result with
  | Except.ok text => { s with facts := some text, isLoadingFacts := false }
  | Except.error _ => { s with facts := some fallbackMessage, isLoadingFacts := false }

/-- `handleNextQuestion` (`src/App.tsx` lines 37-47). -/
def handleNextQuestion (questions : List Question) (s : GameState) : GameState :=
  let nextIndex := s.currentQuestionIndex + 1
  if nextIndex < questions.length then
    { s with currentQuestionIndex := nextIndex
             selectedAnswer := none
             answerState := AnswerState.idle
             facts := none }
  else
    { s with isFinished := true }

/-- `restartGame` (`src/App.tsx` lines 68-75). Note the source resets six
of the seven hooks and does not touch `isLoadingFacts`. -/
def restartGame (s : GameState) : GameState :=
  { s with currentQuestionIndex := 0
           score := 0
           selectedAnswer := none
           answerState := AnswerState.idle
           isFinished := false
           facts := none }

/-- `getButtonClass` (`src/App.tsx` lines 77-91), a pure function of the
evaluation state, the selected answer, the correct answer and the option
being rendered. -/
def getButtonClass (answerState : AnswerState) (selectedAnswer : Option String)
    (correctAnswer : String) (option : String) : String :=
  if answerState = AnswerState.idle then
    "bg-white hover:bg-gray-100 border-gray-200"
  else if option = correctAnswer then
    "bg-green-500 text-white border-green-600 scale-105"
  else if some option = selectedAnswer ∧ option ≠ correctAnswer then
    "bg-red-500 text-white border-red-600"
  else
    "bg-white border-gray-200 opacity-70"

/-- Whole-system state: the component state plus the host event-loop
context (current time, pending `setTimeout` fire times for
`handleNextQuestion`, and outstanding `generateFacts` requests, recorded
by the country name they were issued for). -/
structure SysState where
  game : GameState
  now : Nat
  timers : List Nat
  pendingFacts : List String
  deriving DecidableEq

/-- System state on mounting `Game`: initial hooks, no pending timer, no
outstanding request. -/
def initialSys : SysState :=
  { game := initialState, now := 0, timers := [], pendingFacts := [] }

instance : DecidableEq (Except String String) := fun a b =>
  match a, b with
  | Except.ok x, Except.ok y =>
    if h : x = y then isTrue (by rw [h]) else isFalse (by intro hc; cases hc; exact h rfl)
  | Except.error x, Except.error y =>
    if h : x = y then isTrue (by rw [h]) else isFalse (by intro hc; cases hc; exact h rfl)
  | Except.ok _, Except.error _ => isFalse (by intro hc; cases hc)
  | Except.error _, Except.ok _ => isFalse (by intro hc; cases hc)

/-- Discrete events serialized by the host event loop. -/
inductive GEvent where
  | tick (d : Nat)
  | click (option : String)
  | timerFire (i : Nat)
  | factsResolve (i : Nat) (result : Except String String)
  | restart
  deriving DecidableEq

/-- One event-loop step. `click` is `handleAnswerClick`
(`src/App.tsx` lines 49-66): the guard returns unchanged unless the
evaluation is `idle`; otherwise it records the selection, and on a correct
answer sets `correct`, increments the score, runs the synchronous part of
`generateFacts` (recording the outstanding request) and schedules an
advance 3500 units from now, while on an incorrect answer it sets
`incorrect` and schedules an advance 1500 units from now. Reading
`currentQuestion` out of bounds gives `none` (the handler would throw).
`timerFire i` delivers a scheduled `handleNextQuestion` callback: only
enabled once its fire time has been reached, and it consumes the timer.
`factsResolve` delivers the resolution of an outstanding `generateFacts`
request: the source applies the result unconditionally, with no check that
the issuing question is still current. `restart` is the `Play Again`
button, rendered only when `isFinished` is set. `tick` lets host time
pass. -/
def stepEvent (questions : List Question) (e : GEvent) (u : SysState) : Option SysState :=
  match e with
  | GEvent.tick d => some { u with now := u.now + d }
  | GEvent.click option =>
    if u.game.answerState ≠ AnswerState.idle then some u
    else
      match questions[u.game.currentQuestionIndex]? with
      | none => none
      | some currentQuestion =>
        let g := { u.game with selectedAnswer := some option }
        if option = currentQuestion.correctAnswer then
          some { u with
                 game := generateFactsStart
                   { g with answerState := AnswerState.correct, score := g.score + 1 }
                 timers := u.timers ++ [u.now + 3500]
                 pendingFacts := u.pendingFacts ++ [currentQuestion.correctAnswer] }
        else
          some { u with
                 game := { g with answerState := AnswerState.incorrect }
                 timers := u.timers ++ [u.now + 1500] }
  | GEvent.timerFire i =>
    match u.timers[i]? with
    | none => none
    | some t =>
      if t ≤ u.now then
        some { u with game := handleNextQuestion questions u.game
                      timers := u.timers.eraseIdx i }
      else none
  | GEvent.factsResolve i result =>
    match u.pendingFacts[i]? with
    | none => none
    | some _ =>
      some { u with game := generateFactsResolve result u.game
                    pendingFacts := u.pendingFacts.eraseIdx i }
  | GEvent.restart =>
    if u.game.isFinished then some { u with game := restartGame u.game } else none

/-- Run a list of events from a state, failing if any event is not
enabled. -/
def runEvents (questions : List Question) : List GEvent → SysState → Option SysState
  | [], u => some u
  | e :: es, u =>
    match stepEvent questions e u with
    | none => none
    | some u2 => runEvents questions es u2

/-- A system state reachable from the mount state by some event
sequence. -/
def Reachable (questions : List Question) (u : SysState) : Prop :=
  ∃ es : List GEvent, runEvents questions es initialSys = some u

/-- Two demo question lists used to instantiate witnesses. -/
def demoQuestions : List Question :=
  [ { flagUrl := "flag-france", options := ["France", "Italy", "Spain", "Germany"],
      correctAnswer := "France" }
  , { flagUrl := "flag-japan", options := ["Japan", "China", "Korea", "India"],
      correctAnswer := "Japan" } ]

/-- A single-question demo list. -/
def demoOne : List Question :=
  [ { flagUrl := "flag-a", options := ["A", "B"], correctAnswer := "A" } ]

/-- Inductive system invariant: at most one advance timer is ever pending;
while the evaluation is `idle` no timer is pending and the session is not
finished; and once the session is finished the index sits at the last
question and no timer is pending. -/
def SysInv (questions : List Question) (u : SysState) : Prop :=
  u.timers.length ≤ 1 ∧
  (u.game.answerState = AnswerState.idle → u.timers = [] ∧ u.game.isFinished = false) ∧
  (u.game.isFinished = true →
    questions.length ≤ u.game.currentQuestionIndex + 1 ∧ u.timers = [])

/-- The spec's selection invariant: `selectedAnswer` is set exactly when
the evaluation is no longer pending. -/
def ConsistentSel (g : GameState) : Prop :=
  g.selectedAnswer.isSome = true ↔ g.answerState ≠ AnswerState.idle

/-- A system state whose evaluation is already settled (used for
witnesses). -/
def settledSys : SysState :=
  { game := { initialState with answerState := AnswerState.correct
                                selectedAnswer := some "France"
                                score := 1 }
    now := 0, timers := [3500], pendingFacts := ["France"] }

/-- System state after correctly answering question 0 of `demoQuestions`
and letting 3500 units pass (used for witnesses). -/
def tickedSys : SysState :=
  { game := { currentQuestionIndex := 0, score := 1, selectedAnswer := some "France"
              answerState := AnswerState.correct, isFinished := false, facts := none
              isLoadingFacts := true }
    now := 3500, timers := [3500], pendingFacts := ["France"] }

/-- System state after the advance timer of `tickedSys` fires (used for
witnesses). -/
def firedSys : SysState :=
  { game := { currentQuestionIndex := 1, score := 1, selectedAnswer := none
              answerState := AnswerState.idle, isFinished := false, facts := none
              isLoadingFacts := true }
    now := 3500, timers := [], pendingFacts := ["France"] }

/-- System state reached on `demoOne` after a correct answer and the final
advance: the session is finished (used for witnesses). -/
def finishedSys : SysState :=
  { game := { currentQuestionIndex := 0, score := 1, selectedAnswer := some "A"
              answerState := AnswerState.correct, isFinished := true, facts := none
              isLoadingFacts := true }
    now := 3500, timers := [], pendingFacts := ["A"] }

theorem generateFactsResolve_answerState (r : Except String String) (s : GameState) :
    (generateFactsResolve r s).answerState = s.answerState := by
  cases r <;> rfl

theorem generateFactsResolve_score (r : Except String String) (s : GameState) :
    (generateFactsResolve r s).score = s.score := by
  cases r <;> rfl

theorem generateFactsResolve_selectedAnswer (r : Except String String) (s : GameState) :
    (generateFactsResolve r s).selectedAnswer = s.selectedAnswer := by
  cases r <;> rfl

theorem generateFactsResolve_isFinished (r : Except String String) (s : GameState) :
    (generateFactsResolve r s).isFinished = s.isFinished := by
  cases r <;> rfl

theorem generateFactsResolve_currentQuestionIndex (r : Except String String) (s : GameState) :
    (generateFactsResolve r s).currentQuestionIndex = s.currentQuestionIndex := by
  cases r <;> rfl

theorem handleNextQuestion_score (questions : List Question) (s : GameState) :
    (handleNextQuestion questions s).score = s.score := by
  by_cases hlt : s.currentQuestionIndex + 1 < questions.length
  · simp [handleNextQuestion, hlt]
  · simp [handleNextQuestion, hlt]

/-- A list of length at most one holding some element at position `i` is the
singleton of that element, and `i` is zero. -/
theorem list_single_of_length_le_one {l : List Nat} (hlen : l.length ≤ 1) {i : Nat} {t : Nat}
    (h : l[i]? = some t) : l = [t] ∧ i = 0 := by
  match l, i with
  | [], i => simp at h
  | [a], 0 => simp at h; simp [h]
  | [a], n + 1 => simp at h
  | a :: b :: l2, i => simp at hlen

/-- Inversion of one event-loop step: every enabled step is one of the
seven transition shapes of the controller. -/
theorem stepEvent_inversion {questions : List Question} {e : GEvent} {u u2 : SysState}
    (h : stepEvent questions e u = some u2) :
    (∃ d, e = GEvent.tick d ∧ u2 = { u with now := u.now + d }) ∨
    (∃ option, e = GEvent.click option ∧ u.game.answerState ≠ AnswerState.idle ∧ u2 = u) ∨
    (∃ option q, e = GEvent.click option ∧ u.game.answerState = AnswerState.idle ∧
      questions[u.game.currentQuestionIndex]? = some q ∧ option = q.correctAnswer ∧
      u2 = { u with
             game := generateFactsStart
               { u.game with selectedAnswer := some option
                             answerState := AnswerState.correct
                             score := u.game.score + 1 }
             timers := u.timers ++ [u.now + 3500]
             pendingFacts := u.pendingFacts ++ [q.correctAnswer] }) ∨
    (∃ option q, e = GEvent.click option ∧ u.game.answerState = AnswerState.idle ∧
      questions[u.game.currentQuestionIndex]? = some q ∧ option ≠ q.correctAnswer ∧
      u2 = { u with
             game := { u.game with selectedAnswer := some option
                                   answerState := AnswerState.incorrect }
             timers := u.timers ++ [u.now + 1500] }) ∨
    (∃ i t, e = GEvent.timerFire i ∧ u.timers[i]? = some t ∧ t ≤ u.now ∧
      u2 = { u with game := handleNextQuestion questions u.game
                    timers := u.timers.eraseIdx i }) ∨
    (∃ i r n, e = GEvent.factsResolve i r ∧ u.pendingFacts[i]? = some n ∧
      u2 = { u with game := generateFactsResolve r u.game
                    pendingFacts := u.pendingFacts.eraseIdx i }) ∨
    (e = GEvent.restart ∧ u.game.isFinished = true ∧
      u2 = { u with game := restartGame u.game }) := by
  cases e with
  | tick d =>
    simp only [stepEvent] at h
    exact Or.inl ⟨d, rfl, (Option.some.inj h).symm⟩
  | click option =>
    simp only [stepEvent] at h
    by_cases hA : u.game.answerState = AnswerState.idle
    · rw [if_neg (by simp [hA])] at h
      cases hmq : questions[u.game.currentQuestionIndex]? with
      | none => rw [hmq] at h; simp at h
      | some q =>
        rw [hmq] at h
        dsimp only [] at h
        by_cases hc : option = q.correctAnswer
        · rw [if_pos hc] at h
          refine Or.inr (Or.inr (Or.inl ⟨option, q, rfl, hA, rfl, hc, ?_⟩))
          exact (Option.some.inj h).symm
        · rw [if_neg hc] at h
          refine Or.inr (Or.inr (Or.inr (Or.inl ⟨option, q, rfl, hA, rfl, hc, ?_⟩)))
          exact (Option.some.inj h).symm
    · rw [if_pos hA] at h
      exact Or.inr (Or.inl ⟨option, rfl, hA, (Option.some.inj h).symm⟩)
  | timerFire i =>
    simp only [stepEvent] at h
    cases hmt : u.timers[i]? with
    | none => rw [hmt] at h; simp at h
    | some t =>
      rw [hmt] at h
      dsimp only [] at h
      by_cases hle : t ≤ u.now
      · rw [if_pos hle] at h
        exact Or.inr (Or.inr (Or.inr (Or.inr (Or.inl
          ⟨i, t, rfl, hmt, hle, (Option.some.inj h).symm⟩))))
      · rw [if_neg hle] at h
        simp at h
  | factsResolve i r =>
    simp only [stepEvent] at h
    cases hmp : u.pendingFacts[i]? with
    | none => rw [hmp] at h; simp at h
    | some n =>
      rw [hmp] at h
      dsimp only [] at h
      exact Or.inr (Or.inr (Or.inr (Or.inr (Or.inr (Or.inl
        ⟨i, r, n, rfl, hmp, (Option.some.inj h).symm⟩)))))
  | restart =>
    simp only [stepEvent] at h
    by_cases hf : u.game.isFinished = true
    · rw [if_pos hf] at h
      exact Or.inr (Or.inr (Or.inr (Or.inr (Or.inr (Or.inr
        ⟨rfl, hf, (Option.some.inj h).symm⟩)))))
    · rw [if_neg hf] at h
      simp at h

/-- Any predicate preserved by every enabled step holds after any run. -/
theorem runEvents_preserves {questions : List Question} {P : SysState → Prop}
    (hstep : ∀ e u u2, P u → stepEvent questions e u = some u2 → P u2) :
    ∀ (es : List GEvent) (u u2 : SysState), P u →
      runEvents questions es u = some u2 → P u2 := by
  intro es
  induction es with
  | nil =>
    intro u u2 hP h
    simp only [runEvents] at h
    exact (Option.some.inj h) ▸ hP
  | cons e es ih =>
    intro u u2 hP h
    simp only [runEvents] at h
    cases hst : stepEvent questions e u with
    | none => rw [hst] at h; simp at h
    | some u3 =>
      rw [hst] at h
      exact ih u3 u2 (hstep e u u3 hP hst) h

/-- Claim C5 counterexample: the restart operation does not produce
exactly the initial session state on every input: `restartGame` never
writes `isLoadingFacts`, so restarting a state whose supplemental request
is still outstanding keeps `supplementalLoading = true`, unlike the
initial state. -/
theorem restart_not_initial :
    restartGame { initialState with isLoadingFacts := true } ≠ initialState := by
  decide

/-- Claim C5 (amended): the restart operation resets `currentIndex`,
`score`, `selectedAnswer`, `evaluation`, `finished` and `supplementalText`
to their initial values, and leaves `supplementalLoading` unchanged. -/
theorem restart_resets_all_but_loading (s : GameState) :
    restartGame s = { initialState with isLoadingFacts := s.isLoadingFacts } := by
  rfl

/-- Claim C6: the supplemental-content request sets
`supplementalLoading = true` and clears any prior `supplementalText` on
entry; on success the resolution stores the returned text, on any failure
it stores exactly the fallback string (propagating no error, since
`generateFactsResolve` is total), and in both outcomes it sets
`supplementalLoading = false`. -/
theorem generateFacts_contract (s : GameState) (t e : String) :
    generateFactsStart s = { s with isLoadingFacts := true, facts := none } ∧
    generateFactsResolve (Except.ok t) s = { s with facts := some t, isLoadingFacts := false } ∧
    generateFactsResolve (Except.error e) s =
      { s with facts := some "Sorry, I couldn\x27t fetch any fun facts right now."
               isLoadingFacts := false } := by
  refine ⟨rfl, rfl, rfl⟩

/-- Claim C9: the visual category of an option button is computed by the
pure function `getButtonClass` with cases in this order: neutral while
evaluation is pending; "correct" styling for the option equal to
`correctAnswer` regardless of selection; "incorrect" styling for a
selected wrong option; muted/disabled styling otherwise. -/
theorem buttonClass_cases (a : AnswerState) (sel : Option String) (ca opt : String) :
    (a = AnswerState.idle →
      getButtonClass a sel ca opt = "bg-white hover:bg-gray-100 border-gray-200") ∧
    (a ≠ AnswerState.idle → opt = ca →
      getButtonClass a sel ca opt = "bg-green-500 text-white border-green-600 scale-105") ∧
    (a ≠ AnswerState.idle → opt ≠ ca → sel = some opt →
      getButtonClass a sel ca opt = "bg-red-500 text-white border-red-600") ∧
    (a ≠ AnswerState.idle → opt ≠ ca → sel ≠ some opt →
      getButtonClass a sel ca opt = "bg-white border-gray-200 opacity-70") := by
  refine ⟨?_, ?_, ?_, ?_⟩ <;> intro h1
  · simp [getButtonClass, h1]
  · intro h2
    simp [getButtonClass, h1, h2]
  · intro h2 h3
    simp [getButtonClass, h1, h2, h3]
  · intro h2 h3
    have hne : ¬ some opt = sel := fun hc => h3 hc.symm
    simp [getButtonClass, h1, h2, hne]

/-- Claim C9 witness: the four styling cases evaluated at concrete
inputs. -/
theorem buttonClass_cases_witness :
    getButtonClass AnswerState.idle none "France" "Italy" =
      "bg-white hover:bg-gray-100 border-gray-200" ∧
    getButtonClass AnswerState.correct (some "France") "France" "France" =
      "bg-green-500 text-white border-green-600 scale-105" ∧
    getButtonClass AnswerState.incorrect (some "Italy") "France" "Italy" =
      "bg-red-500 text-white border-red-600" ∧
    getButtonClass AnswerState.incorrect (some "Italy") "France" "Spain" =
      "bg-white border-gray-200 opacity-70" := by
  refine ⟨?_, ?_, ?_, ?_⟩
  · exact (buttonClass_cases AnswerState.idle none "France" "Italy").1 rfl
  · exact (buttonClass_cases AnswerState.correct (some "France") "France" "France").2.1
      (by decide) rfl
  · exact (buttonClass_cases AnswerState.incorrect (some "Italy") "France" "Italy").2.2.1
      (by decide) (by decide) rfl
  · exact (buttonClass_cases AnswerState.incorrect (some "Italy") "France" "Spain").2.2.2
      (by decide) (by decide) (by decide)

theorem sysInv_initial (questions : List Question) : SysInv questions initialSys :=
  ⟨by simp [initialSys], fun _ => ⟨rfl, rfl⟩,
    fun h => by simp [initialSys, initialState] at h⟩

theorem sysInv_step {questions : List Question} {e : GEvent} {u u2 : SysState}
    (hI : SysInv questions u) (h : stepEvent questions e u = some u2) :
    SysInv questions u2 := by
  obtain ⟨h1, h2, h3⟩ := hI
  rcases stepEvent_inversion h with
      ⟨d, he, rfl⟩ | ⟨o, he, hA, rfl⟩ | ⟨o, q, he, hA, hq, hc, rfl⟩ |
      ⟨o, q, he, hA, hq, hc, rfl⟩ | ⟨i, t, he, hmt, hle, rfl⟩ |
      ⟨i, r, n, he, hmp, rfl⟩ | ⟨he, hf, rfl⟩
  · exact ⟨h1, h2, h3⟩
  · exact ⟨h1, h2, h3⟩
  · obtain ⟨hT, hF⟩ := h2 hA
    refine ⟨by simp [hT], ?_, ?_⟩
    · intro hx
      exact AnswerState.noConfusion (show AnswerState.correct = AnswerState.idle from hx)
    · intro hx
      have hx2 : u.game.isFinished = true := hx
      rw [hF] at hx2
      exact Bool.noConfusion hx2
  · obtain ⟨hT, hF⟩ := h2 hA
    refine ⟨by simp [hT], ?_, ?_⟩
    · intro hx
      exact AnswerState.noConfusion (show AnswerState.incorrect = AnswerState.idle from hx)
    · intro hx
      have hx2 : u.game.isFinished = true := hx
      rw [hF] at hx2
      exact Bool.noConfusion hx2
  · have hTne : u.timers ≠ [] := by
      intro hnil
      rw [hnil] at hmt
      simp at hmt
    have hAn : u.game.answerState ≠ AnswerState.idle := fun hx => hTne (h2 hx).1
    have hFn : u.game.isFinished = false := by
      cases hfb : u.game.isFinished
      · rfl
      · exact absurd (h3 hfb).2 hTne
    obtain ⟨hsing, hi0⟩ := list_single_of_length_le_one h1 hmt
    have hErase : u.timers.eraseIdx i = [] := by rw [hsing, hi0]; rfl
    by_cases hlt : u.game.currentQuestionIndex + 1 < questions.length
    · have hgame : handleNextQuestion questions u.game =
          { u.game with currentQuestionIndex := u.game.currentQuestionIndex + 1
                        selectedAnswer := none
                        answerState := AnswerState.idle
                        facts := none } := by
        simp [handleNextQuestion, hlt]
      refine ⟨by simp [hErase], ?_, ?_⟩
      · intro _
        exact ⟨hErase, by simp [hgame, hFn]⟩
      · intro hx
        simp [hgame, hFn] at hx
    · have hgame : handleNextQuestion questions u.game =
          { u.game with isFinished := true } := by
        simp [handleNextQuestion, hlt]
      refine ⟨by simp [hErase], ?_, ?_⟩
      · intro hx
        rw [show ({ u with game := handleNextQuestion questions u.game
                           timers := u.timers.eraseIdx i } : SysState).game =
              handleNextQuestion questions u.game from rfl, hgame] at hx
        exact absurd hx hAn
      · intro _
        refine ⟨?_, hErase⟩
        rw [show ({ u with game := handleNextQuestion questions u.game
                           timers := u.timers.eraseIdx i } : SysState).game =
              handleNextQuestion questions u.game from rfl, hgame]
        dsimp only []
        omega
  · cases r <;> exact ⟨h1, h2, h3⟩
  · obtain ⟨hlen, hT⟩ := h3 hf
    refine ⟨h1, ?_, ?_⟩
    · intro _
      exact ⟨hT, rfl⟩
    · intro hx
      exact Bool.noConfusion (show false = true from hx)

theorem reachable_sysInv {questions : List Question} {u : SysState}
    (h : Reachable questions u) : SysInv questions u := by
  obtain ⟨es, hrun⟩ := h
  exact runEvents_preserves (fun e v v2 hP hst => sysInv_step hP hst) es initialSys u
    (sysInv_initial questions) hrun

/-- Claim C1: with the evaluation pending, clicking the option equal to
`correctAnswer` records the selection, sets the evaluation to `correct`
and increments the score by exactly one, while clicking any other option
records the selection, sets the evaluation to `incorrect` and leaves the
score unchanged. -/
theorem click_evaluates (questions : List Question) (u : SysState) (q : Question)
    (option : String) (hidle : u.game.answerState = AnswerState.idle)
    (hq : questions[u.game.currentQuestionIndex]? = some q) :
    ∃ u2, stepEvent questions (GEvent.click option) u = some u2 ∧
      u2.game.selectedAnswer = some option ∧
      (option = q.correctAnswer → u2.game.answerState = AnswerState.correct ∧
        u2.game.score = u.game.score + 1) ∧
      (option ≠ q.correctAnswer → u2.game.answerState = AnswerState.incorrect ∧
        u2.game.score = u.game.score) := by
  by_cases hc : option = q.correctAnswer
  · refine ⟨{ u with
        game := generateFactsStart
          { u.game with selectedAnswer := some option
                        answerState := AnswerState.correct
                        score := u.game.score + 1 }
        timers := u.timers ++ [u.now + 3500]
        pendingFacts := u.pendingFacts ++ [q.correctAnswer] }, ?_, rfl, ?_, ?_⟩
    · simp [stepEvent, hidle, hq, hc]
    · intro _
      exact ⟨rfl, rfl⟩
    · intro hcon
      exact absurd hc hcon
  · refine ⟨{ u with
        game := { u.game with selectedAnswer := some option
                              answerState := AnswerState.incorrect }
        timers := u.timers ++ [u.now + 1500] }, ?_, rfl, ?_, ?_⟩
    · simp [stepEvent, hidle, hq, hc]
    · intro hcon
      exact absurd hcon hc
    · intro _
      exact ⟨rfl, rfl⟩

/-- Claim C1 witness: clicking the correct option of question 0 from the
mount state. -/
theorem click_evaluates_witness :
    ∃ u2, stepEvent demoQuestions (GEvent.click "France") initialSys = some u2 ∧
      u2.game.selectedAnswer = some "France" ∧
      ("France" = ({ flagUrl := "flag-france"
                     options := ["France", "Italy", "Spain", "Germany"]
                     correctAnswer := "France" } : Question).correctAnswer →
        u2.game.answerState = AnswerState.correct ∧
        u2.game.score = initialSys.game.score + 1) ∧
      ("France" ≠ ({ flagUrl := "flag-france"
                     options := ["France", "Italy", "Spain", "Germany"]
                     correctAnswer := "France" } : Question).correctAnswer →
        u2.game.answerState = AnswerState.incorrect ∧
        u2.game.score = initialSys.game.score) :=
  click_evaluates demoQuestions initialSys
    { flagUrl := "flag-france", options := ["France", "Italy", "Spain", "Germany"]
      correctAnswer := "France" } "France" rfl rfl

/-- Claim C3: once the evaluation is settled (not `idle`), a selection
event of any option leaves the whole system state unchanged: the handler
guard returns before touching any field, scheduling any timer or issuing
any request. Idempotence under repetition is immediate since the state is
returned unchanged. -/
theorem click_noop_when_settled (questions : List Question) (option : String)
    (u : SysState) (h : u.game.answerState ≠ AnswerState.idle) :
    stepEvent questions (GEvent.click option) u = some u := by
  simp [stepEvent, h]

/-- Claim C3 witness: clicking again on a settled state changes nothing. -/
theorem click_noop_when_settled_witness :
    stepEvent demoQuestions (GEvent.click "Italy") settledSys = some settledSys :=
  click_noop_when_settled demoQuestions "Italy" settledSys (by decide)

/-- Claim C2 (code behavior at the failing input): the supplemental
request issued for question 0 is resolved only after the advance to
question 1, and its late response is nevertheless applied: the run ends at
`currentQuestionIndex = 1` with `facts` overwritten by question 0's
response. The source applies `setFacts` unconditionally on resolution,
with no association to the question index active at request time. -/
theorem stale_facts_overwrite :
    runEvents demoQuestions
      [GEvent.click "France", GEvent.tick 3500, GEvent.timerFire 0,
        GEvent.factsResolve 0 (Except.ok "Late facts about France")] initialSys =
      some { game := { currentQuestionIndex := 1, score := 1, selectedAnswer := none
                       answerState := AnswerState.idle, isFinished := false
                       facts := some "Late facts about France", isLoadingFacts := false }
             now := 3500, timers := [], pendingFacts := [] } := by
  decide

/-- Claim C4: the advance operation moves to the next index and resets
`selectedAnswer`, `evaluation` and `supplementalText` when a next question
exists, and otherwise only sets `finished`; the score is unchanged in both
branches, and in every reachable finished state every enabled non-restart
event leaves the score unchanged. -/
theorem advance_contract (questions : List Question) :
    (∀ s : GameState,
      (s.currentQuestionIndex + 1 < questions.length →
        handleNextQuestion questions s =
          { s with currentQuestionIndex := s.currentQuestionIndex + 1
                   selectedAnswer := none
                   answerState := AnswerState.idle
                   facts := none }) ∧
      (¬ s.currentQuestionIndex + 1 < questions.length →
        handleNextQuestion questions s = { s with isFinished := true }) ∧
      (handleNextQuestion questions s).score = s.score) ∧
    (∀ (e : GEvent) (u u2 : SysState), Reachable questions u →
      u.game.isFinished = true → e ≠ GEvent.restart →
      stepEvent questions e u = some u2 → u2.game.score = u.game.score) := by
  constructor
  · intro s
    refine ⟨?_, ?_, handleNextQuestion_score questions s⟩
    · intro hlt
      simp [handleNextQuestion, hlt]
    · intro hlt
      simp [handleNextQuestion, hlt]
  · intro e u u2 hreach hfin hne h
    have hI := reachable_sysInv hreach
    rcases stepEvent_inversion h with
        ⟨d, he, rfl⟩ | ⟨o, he, hA, rfl⟩ | ⟨o, q, he, hA, hq, hc, rfl⟩ |
        ⟨o, q, he, hA, hq, hc, rfl⟩ | ⟨i, t, he, hmt, hle, rfl⟩ |
        ⟨i, r, n, he, hmp, rfl⟩ | ⟨he, hf, rfl⟩
    · rfl
    · rfl
    · rw [(hI.2.1 hA).2] at hfin
      exact Bool.noConfusion hfin
    · rfl
    · exact handleNextQuestion_score questions u.game
    · cases r <;> rfl
    · exact absurd he hne

/-- Claim C4 witness: both advance branches on concrete states, and score
preservation after a concrete finished run. -/
theorem advance_contract_witness :
    (handleNextQuestion demoQuestions initialState =
      { initialState with currentQuestionIndex := 1
                          selectedAnswer := none
                          answerState := AnswerState.idle
                          facts := none }) ∧
    (handleNextQuestion demoOne finishedSys.game =
      { finishedSys.game with isFinished := true }) ∧
    ({ finishedSys with now := finishedSys.now + 5 } : SysState).game.score =
      finishedSys.game.score := by
  refine ⟨?_, ?_, ?_⟩
  · exact ((advance_contract demoQuestions).1 initialState).1 (by decide)
  · exact ((advance_contract demoOne).1 finishedSys.game).2.1 (by decide)
  · exact (advance_contract demoOne).2 (GEvent.tick 5) finishedSys _
      ⟨[GEvent.click "A", GEvent.tick 3500, GEvent.timerFire 0], by decide⟩ rfl
      (by decide) rfl

/-- Claim C7: in every reachable state `selectedAnswer` is set exactly
when the evaluation is not pending, and this biconditional is preserved by
every enabled operation. -/
theorem selected_iff_settled (questions : List Question) :
    (∀ u : SysState, Reachable questions u → ConsistentSel u.game) ∧
    (∀ (e : GEvent) (u u2 : SysState), ConsistentSel u.game →
      stepEvent questions e u = some u2 → ConsistentSel u2.game) := by
  have hstep : ∀ (e : GEvent) (u u2 : SysState), ConsistentSel u.game →
      stepEvent questions e u = some u2 → ConsistentSel u2.game := by
    intro e u u2 hC h
    rcases stepEvent_inversion h with
        ⟨d, he, rfl⟩ | ⟨o, he, hA, rfl⟩ | ⟨o, q, he, hA, hq, hc, rfl⟩ |
        ⟨o, q, he, hA, hq, hc, rfl⟩ | ⟨i, t, he, hmt, hle, rfl⟩ |
        ⟨i, r, n, he, hmp, rfl⟩ | ⟨he, hf, rfl⟩
    · exact hC
    · exact hC
    · simp [ConsistentSel, generateFactsStart]
    · simp [ConsistentSel]
    · by_cases hlt : u.game.currentQuestionIndex + 1 < questions.length
      · have hgame : handleNextQuestion questions u.game =
            { u.game with currentQuestionIndex := u.game.currentQuestionIndex + 1
                          selectedAnswer := none
                          answerState := AnswerState.idle
                          facts := none } := by
          simp [handleNextQuestion, hlt]
        simp [ConsistentSel, hgame]
      · have hgame : handleNextQuestion questions u.game =
            { u.game with isFinished := true } := by
          simp [handleNextQuestion, hlt]
        simpa [ConsistentSel, hgame] using hC
    · cases r <;> simpa [ConsistentSel] using hC
    · simp [ConsistentSel, restartGame]
  refine ⟨?_, hstep⟩
  intro u hu
  obtain ⟨es, hrun⟩ := hu
  exact runEvents_preserves hstep es initialSys u
    (by simp [ConsistentSel, initialSys, initialState]) hrun

/-- Claim C7 witness: the invariant at the reachable mount state, and its
preservation across a concrete settled-state click. -/
theorem selected_iff_settled_witness :
    ConsistentSel initialSys.game ∧ ConsistentSel settledSys.game := by
  constructor
  · exact (selected_iff_settled demoQuestions).1 initialSys ⟨[], rfl⟩
  · exact (selected_iff_settled demoQuestions).2 (GEvent.click "Italy") settledSys
      settledSys (by simp [ConsistentSel, settledSys, initialState]) rfl

/-- Claim C8: a selection while the evaluation is pending schedules
exactly one advance timer, due 3500 units from now when the selected
option equals `correctAnswer` and 1500 units otherwise; a scheduled timer
can fire only once its due time has been reached, firing consumes it (so
it fires at most once), and time never decreases across steps. -/
theorem advance_scheduling (questions : List Question) :
    (∀ (u : SysState) (q : Question) (option : String),
      u.game.answerState = AnswerState.idle →
      questions[u.game.currentQuestionIndex]? = some q →
      ∃ u2, stepEvent questions (GEvent.click option) u = some u2 ∧
        u2.timers = u.timers ++
          [u.now + if option = q.correctAnswer then 3500 else 1500]) ∧
    (∀ (i : Nat) (u u2 : SysState),
      stepEvent questions (GEvent.timerFire i) u = some u2 →
      ∃ t, u.timers[i]? = some t ∧ t ≤ u.now ∧ u2.timers = u.timers.eraseIdx i ∧
        u2.game = handleNextQuestion questions u.game) ∧
    (∀ (e : GEvent) (u u2 : SysState), stepEvent questions e u = some u2 →
      u.now ≤ u2.now) := by
  refine ⟨?_, ?_, ?_⟩
  · intro u q option hidle hq
    by_cases hc : option = q.correctAnswer
    · refine ⟨{ u with
          game := generateFactsStart
            { u.game with selectedAnswer := some option
                          answerState := AnswerState.correct
                          score := u.game.score + 1 }
          timers := u.timers ++ [u.now + 3500]
          pendingFacts := u.pendingFacts ++ [q.correctAnswer] },
        by simp [stepEvent, hidle, hq, hc], ?_⟩
      simp [hc]
    · refine ⟨{ u with
          game := { u.game with selectedAnswer := some option
                                answerState := AnswerState.incorrect }
          timers := u.timers ++ [u.now + 1500] },
        by simp [stepEvent, hidle, hq, hc], ?_⟩
      simp [hc]
  · intro i u u2 h
    simp only [stepEvent] at h
    cases hmt : u.timers[i]? with
    | none =>
      rw [hmt] at h
      simp at h
    | some t =>
      rw [hmt] at h
      dsimp only [] at h
      by_cases hle : t ≤ u.now
      · rw [if_pos hle] at h
        obtain rfl := Option.some.inj h
        exact ⟨t, rfl, hle, rfl, rfl⟩
      · rw [if_neg hle] at h
        simp at h
  · intro e u u2 h
    rcases stepEvent_inversion h with
        ⟨d, he, rfl⟩ | ⟨o, he, hA, rfl⟩ | ⟨o, q, he, hA, hq, hc, rfl⟩ |
        ⟨o, q, he, hA, hq, hc, rfl⟩ | ⟨i, t, he, hmt, hle, rfl⟩ |
        ⟨i, r, n, he, hmp, rfl⟩ | ⟨he, hf, rfl⟩
    · exact Nat.le_add_right u.now d
    · exact Nat.le.refl
    · exact Nat.le.refl
    · exact Nat.le.refl
    · exact Nat.le.refl
    · exact Nat.le.refl
    · exact Nat.le.refl

/-- Claim C8 witness: the 1500-unit timer scheduled by a wrong click, the
fire conditions of a due timer, and time monotonicity, at concrete
states. -/
theorem advance_scheduling_witness :
    (∃ u2, stepEvent demoQuestions (GEvent.click "Italy") initialSys = some u2 ∧
      u2.timers = initialSys.timers ++
        [initialSys.now +
          if "Italy" = ({ flagUrl := "flag-france"
                          options := ["France", "Italy", "Spain", "Germany"]
                          correctAnswer := "France" } : Question).correctAnswer
          then 3500 else 1500]) ∧
    (∃ t, tickedSys.timers[0]? = some t ∧ t ≤ tickedSys.now ∧
      firedSys.timers = tickedSys.timers.eraseIdx 0 ∧
      firedSys.game = handleNextQuestion demoQuestions tickedSys.game) ∧
    initialSys.now ≤ ({ initialSys with now := initialSys.now + 7 } : SysState).now := by
  refine ⟨?_, ?_, ?_⟩
  · exact (advance_scheduling demoQuestions).1 initialSys
      { flagUrl := "flag-france", options := ["France", "Italy", "Spain", "Germany"]
        correctAnswer := "France" } "Italy" rfl rfl
  · exact (advance_scheduling demoQuestions).2.1 0 tickedSys firedSys (by decide)
  · exact (advance_scheduling demoQuestions).2.2 (GEvent.tick 7) initialSys _ rfl

/-- Claim C10: with a non-empty question list, every reachable state keeps
`currentIndex` strictly below the number of questions: the finish branch
of the advance never moves the index past the last question. -/
theorem index_in_bounds (questions : List Question) (h0 : 0 < questions.length)
    (u : SysState) (hu : Reachable questions u) :
    u.game.currentQuestionIndex < questions.length := by
  obtain ⟨es, hrun⟩ := hu
  refine runEvents_preserves
    (P := fun v => v.game.currentQuestionIndex < questions.length)
    ?_ es initialSys u ?_ hrun
  · intro e v v2 hP h
    rcases stepEvent_inversion h with
        ⟨d, he, rfl⟩ | ⟨o, he, hA, rfl⟩ | ⟨o, q, he, hA, hq, hc, rfl⟩ |
        ⟨o, q, he, hA, hq, hc, rfl⟩ | ⟨i, t, he, hmt, hle, rfl⟩ |
        ⟨i, r, n, he, hmp, rfl⟩ | ⟨he, hf, rfl⟩
    · exact hP
    · exact hP
    · exact hP
    · exact hP
    · by_cases hlt : v.game.currentQuestionIndex + 1 < questions.length
      · have hgame : handleNextQuestion questions v.game =
            { v.game with currentQuestionIndex := v.game.currentQuestionIndex + 1
                          selectedAnswer := none
                          answerState := AnswerState.idle
                          facts := none } := by
          simp [handleNextQuestion, hlt]
        simpa [hgame] using hlt
      · have hgame : handleNextQuestion questions v.game =
            { v.game with isFinished := true } := by
          simp [handleNextQuestion, hlt]
        simpa [hgame] using hP
    · cases r <;> exact hP
    · simpa [restartGame] using h0
  · exact h0

/-- Claim C10 witness: the bound at the reachable mount state on a
non-empty list. -/
theorem index_in_bounds_witness :
    initialSys.game.currentQuestionIndex < demoQuestions.length :=
  index_in_bounds demoQuestions (by decide) initialSys ⟨[], rfl⟩

end FunWithFlags
